import Mathlib

/-!
Verification of the recipe-book CRUD service.

Shallow embedding of the repository's data model (`models.py`), data-access
layer (`crud.py`, class `CRUDRecipe`), request validation (`schemas.py`) and
HTTP routes (`main.py`).  The relational store is modelled as explicit state:
a list of recipe rows, a list of ingredient rows, and the next auto-assigned
primary keys.  The many-to-many association `recipe_ingredient` is carried on
each recipe row as the list of associated ingredient ids, in the order the
code builds the relationship collection (a Python list, which preserves
duplicate references).  Sessions/commits are modelled by returning the updated
store; the non-concurrent semantics of one request at a time is assumed, as
the spec scopes concurrency out of the functional claims.
-/

/-- Row of the `ingredients` table (`models.py`, class `Ingredient`):
`id` integer primary key, `name` string. -/
structure Ingredient where
  id : Nat
  name : String
deriving Repr, DecidableEq

/-- Row of the `recipes` table (`models.py`, class `Recipe`) together with its
`recipe_ingredient` association rows: `ingredients` is the list of associated
ingredient ids as the relationship collection holds them. `views` defaults
to 0 at insertion. -/
structure Recipe where
  id : Nat
  title : String
  cooking_time : Int
  descr : String
  views : Nat
  ingredients : List Nat
deriving Repr, DecidableEq

/-- The relational store: the two tables plus the auto-increment counters the
engine uses to assign primary keys on insert. -/
structure Store where
  recipes : List Recipe
  ingredientRows : List Ingredient
  nextRecipeId : Nat
  nextIngredientId : Nat
deriving Repr, DecidableEq

/-- The empty store, as created by `init_db` at startup. -/
def Store.empty : Store := ⟨[], [], 0, 0⟩

/-- Request body of `POST /recipes` (`schemas.py`, class `RecipeCreate`):
`title`, `cooking_time`, `description`, `ingredient_names`. -/
structure RecipeCreate where
  title : String
  cooking_time : Int
  descr : String
  ingredient_names : List String
deriving Repr, DecidableEq

/-- The ordering used by `CRUDRecipe.get_recipes` (`crud.py` line 35):
`order_by(Recipe.views.desc(), Recipe.cooking_time.asc())` — primary key
`views` descending, tie-break `cooking_time` ascending. -/
def recipeOrder (a b : Recipe) : Prop :=
  b.views < a.views ∨ (a.views = b.views ∧ a.cooking_time ≤ b.cooking_time)

instance : DecidableRel recipeOrder := fun a b =>
  inferInstanceAs (Decidable (b.views < a.views ∨ (a.views = b.views ∧ a.cooking_time ≤ b.cooking_time)))

instance : IsTotal Recipe recipeOrder where
  total a b := by
    unfold recipeOrder
    rcases lt_trichotomy a.views b.views with h | h | h
    · exact Or.inr (Or.inl h)
    · rcases le_total a.cooking_time b.cooking_time with h' | h'
      · exact Or.inl (Or.inr ⟨h, h'⟩)
      · exact Or.inr (Or.inr ⟨h.symm, h'⟩)
    · exact Or.inl (Or.inl h)

instance : IsTrans Recipe recipeOrder where
  trans a b c hab hbc := by
    unfold recipeOrder at *
    rcases hab with h1 | ⟨h1, h1'⟩ <;> rcases hbc with h2 | ⟨h2, h2'⟩
    · exact Or.inl (h2.trans h1)
    · exact Or.inl (h2 ▸ h1)
    · exact Or.inl (h1 ▸ h2)
    · exact Or.inr ⟨h1.trans h2, h1'.trans h2'⟩

namespace CRUDRecipe

/-- `CRUDRecipe.get_recipes` (`crud.py` lines 21-44): select all recipes
ordered by `views` descending then `cooking_time` ascending, with
`offset(skip)` and `limit(limit)`.  The defaults in the source are
`skip = 0`, `limit = 100`.  Side-effect free: no commit is issued, so the
store is not returned. -/
def get_recipes (s : Store) (skip limit : Nat) : List Recipe :=
  ((List.insertionSort recipeOrder s.recipes).drop skip).take limit

/-- The row-level effect of the commit in `get_recipe` (`crud.py` line 62,
`recipe.views += 1`): the row whose primary key matches gets its `views`
incremented, every other row is untouched. -/
def bumpIfId (recipe_id : Nat) (x : Recipe) : Recipe :=
  if x.id == recipe_id then { x with views := x.views + 1 } else x

/-- `CRUDRecipe.get_recipe` (`crud.py` lines 46-69): select the recipe whose
primary key equals `recipe_id`; if found, increment its `views` by 1 and
commit, returning the refreshed row; if absent, return `none` with no
mutation (no commit is issued on that path). -/
def get_recipe (s : Store) (recipe_id : Nat) : Option Recipe × Store :=
  match s.recipes.find? (fun r => r.id == recipe_id) with
  | none => (none, s)
  | some r =>
    (some { r with views := r.views + 1 },
     { s with recipes := s.recipes.map (bumpIfId recipe_id) })

/-- The insert-on-absent step of the loop in `create_recipe` (`crud.py`
lines 96-100): `db.add(Ingredient(name=nm))` followed by the flush that
assigns the next auto-increment id to the new row. -/
def insertIngredient (s : Store) (nm : String) : Store :=
  { s with ingredientRows := s.ingredientRows ++ [⟨s.nextIngredientId, nm⟩],
           nextIngredientId := s.nextIngredientId + 1 }

/-- The ingredient-resolution loop of `CRUDRecipe.create_recipe`
(`crud.py` lines 83-101): for each name in order, select an `Ingredient`
with that exact name; if found, append it to the working list; otherwise
insert a new row (the flush assigns its id) and append that.  Returns the
resolved ingredient ids in input order together with the updated store. -/
def resolveIngredients : Store → List String → List Nat × Store
  | s, [] => ([], s)
  | s, nm :: rest =>
    match s.ingredientRows.find? (fun i => i.name == nm) with
    | some ing =>
      let (ids, s') := resolveIngredients s rest
      (ing.id :: ids, s')
    | none =>
      let (ids, s') := resolveIngredients (insertIngredient s nm) rest
      (s.nextIngredientId :: ids, s')

/-- `CRUDRecipe.create_recipe` (`crud.py` lines 71-119): resolve the
ingredient names with `resolveIngredients`, then insert a `Recipe` row with
`views` at its default 0 and the resolved relationship list, commit, and
return the refreshed recipe. -/
def create_recipe (s : Store) (rc : RecipeCreate) : Recipe × Store :=
  let (ids, s1) := resolveIngredients s rc.ingredient_names
  let r : Recipe :=
    { id := s1.nextRecipeId, title := rc.title, cooking_time := rc.cooking_time,
      descr := rc.descr, views := 0, ingredients := ids }
  (r, { s1 with recipes := s1.recipes ++ [r], nextRecipeId := s1.nextRecipeId + 1 })

/-- `CRUDRecipe.get_ingredients` (`crud.py` lines 121-131): select all
ingredient rows.  Side-effect free. -/
def get_ingredients (s : Store) : List Ingredient :=
  s.ingredientRows

end CRUDRecipe

/-- HTTP reply of the single-recipe routes: status code, optional recipe
body, optional error detail message. -/
structure RecipeReply where
  status : Nat
  body : Option Recipe
  detail : Option String
deriving Repr, DecidableEq

/-- Request validation for `POST /recipes`, as enforced by the framework
from `schemas.py` before the handler runs: `RecipeBase` declares
`title: Field(..., max_length=100)` and `cooking_time: Field(..., ge=1)`;
`description` and `ingredient_names` are required but carry no value
constraint (the `description=` keyword of `Field` is documentation only). -/
def validRecipeCreate (rc : RecipeCreate) : Bool :=
  rc.title.length ≤ 100 && 1 ≤ rc.cooking_time

/-- Route `GET /recipes` (`main.py` lines 64-89): delegates to
`CRUDRecipe.get_recipes` and returns 200 with the list; the store passes
through unchanged since the query has no side effect. -/
def getRecipesRoute (s : Store) (skip limit : Nat) : (Nat × List Recipe) × Store :=
  ((200, CRUDRecipe.get_recipes s skip limit), s)

/-- Route `GET /recipes/\x7brecipe_id\x7d` (`main.py` lines 92-123): delegates to
`CRUDRecipe.get_recipe`; an absent result raises
`HTTPException(404, "Рецепт не найден")`, a present one is returned with
status 200. -/
def getRecipeRoute (s : Store) (recipe_id : Nat) : RecipeReply × Store :=
  match CRUDRecipe.get_recipe s recipe_id with
  | (none, s') => ({ status := 404, body := none, detail := some "Рецепт не найден" }, s')
  | (some r, s') => ({ status := 200, body := some r, detail := none }, s')

/-- Route `POST /recipes` (`main.py` lines 126-159) together with the
framework's validation step: an invalid body is rejected with the
client-error status 422 before the handler (and hence the data-access
layer) runs; a valid one is passed to `CRUDRecipe.create_recipe` and the
created recipe is returned with status 201. -/
def postRecipesRoute (s : Store) (rc : RecipeCreate) : RecipeReply × Store :=
  if validRecipeCreate rc then
    let (r, s') := CRUDRecipe.create_recipe s rc
    ({ status := 201, body := some r, detail := none }, s')
  else
    ({ status := 422, body := none, detail := none }, s)

/-- The `except` branch of the `POST /recipes` handler (`main.py` lines
154-159): any exception `e` raised by `CRUDRecipe.create_recipe` is turned
into `HTTPException(500, f"Ошибка при создании рецепта: \x7bstr(e)\x7d")` — the
reply detail interpolates the exception's own message. -/
def createRecipeErrorReply (e : String) : RecipeReply :=
  { status := 500, body := none, detail := some ("Ошибка при создании рецепта: " ++ e) }

/-- Route `GET /ingredients` (`main.py` lines 162-178): delegates to
`CRUDRecipe.get_ingredients`, returns 200; no side effect. -/
def getIngredientsRoute (s : Store) : (Nat × List Ingredient) × Store :=
  ((200, CRUDRecipe.get_ingredients s), s)

/-! ### Concrete fixtures used by the spec's examples -/

/-- Fixture recipe with `(views, cooking_time) = (10, 5)`. -/
def exR1 : Recipe := ⟨1, "r1", 5, "d1", 10, []⟩

/-- Fixture recipe with `(views, cooking_time) = (10, 3)`. -/
def exR2 : Recipe := ⟨2, "r2", 3, "d2", 10, []⟩

/-- Fixture recipe with `(views, cooking_time) = (20, 1)`. -/
def exR3 : Recipe := ⟨3, "r3", 1, "d3", 20, []⟩

/-- A 3-recipe store holding the `(views, cooking_time)` pairs `(10,5)`,
`(10,3)`, `(20,1)` of the spec's ordering example. -/
def ex3Store : Store := ⟨[exR1, exR2, exR3], [], 4, 0⟩

/-! ### C1: listing order and pagination -/

/-- The full listing (offset 0, limit = row count) is exactly the sorted
table. -/
theorem get_recipes_full (s : Store) :
    CRUDRecipe.get_recipes s 0 s.recipes.length = List.insertionSort recipeOrder s.recipes := by
  unfold CRUDRecipe.get_recipes
  rw [List.drop_zero]
  exact List.take_of_length_le (le_of_eq (List.length_insertionSort recipeOrder s.recipes))

/-- C1: for every store and every `skip`, `limit`, the full listing of
`get_recipes` is a permutation of the recipe table sorted by `views`
descending with ties broken by `cooking_time` ascending, and
`get_recipes s skip limit` is that ordering with `skip` elements dropped
and at most `limit` kept; on the 3-recipe store with `(views, cooking_time)`
pairs `(10,5)`, `(10,3)`, `(20,1)` the full listing is
`[(20,1), (10,3), (10,5)]` and `skip = 1`, `limit = 1` returns exactly the
`(10,3)` recipe. -/
theorem C1_list_recipes_ordering_and_pagination :
    (∀ (s : Store) (skip limit : Nat),
      (CRUDRecipe.get_recipes s 0 s.recipes.length).Perm s.recipes
      ∧ List.Sorted recipeOrder (CRUDRecipe.get_recipes s 0 s.recipes.length)
      ∧ CRUDRecipe.get_recipes s skip limit
          = ((CRUDRecipe.get_recipes s 0 s.recipes.length).drop skip).take limit
      ∧ (CRUDRecipe.get_recipes s skip limit).length ≤ limit)
    ∧ CRUDRecipe.get_recipes ex3Store 0 100 = [exR3, exR2, exR1]
    ∧ CRUDRecipe.get_recipes ex3Store 1 1 = [exR2] := by
  refine ⟨fun s skip limit => ⟨?_, ?_, ?_, ?_⟩, by decide, by decide⟩
  · rw [get_recipes_full]
    exact List.perm_insertionSort recipeOrder s.recipes
  · rw [get_recipes_full]
    exact List.sorted_insertionSort recipeOrder s.recipes
  · rw [get_recipes_full]
    rfl
  · unfold CRUDRecipe.get_recipes
    exact le_trans (le_of_eq (List.length_take _ _)) (min_le_left _ _)

/-! ### C2: the detail fetch increments `views` by exactly one -/

/-- In a table whose ids are pairwise distinct (the primary-key invariant),
the primary-key lookup finds exactly the member row with that id. -/
theorem find?_eq_of_nodup_ids (l : List Recipe) (r : Recipe) (rid : Nat)
    (hnd : (l.map Recipe.id).Nodup) (hmem : r ∈ l) (hid : r.id = rid) :
    l.find? (fun x => x.id == rid) = some r := by
  induction l with
  | nil => cases hmem
  | cons a t ih =>
    rw [List.map_cons, List.nodup_cons] at hnd
    rcases List.mem_cons.mp hmem with h | h
    · subst h
      exact List.find?_cons_of_pos _ (by simp [hid])
    · have hne : ¬ a.id = rid := by
        intro hc
        exact hnd.1 (by rw [hc, ← hid]; exact List.mem_map_of_mem Recipe.id h)
      rw [List.find?_cons_of_neg _ (by simp [hne])]
      exact ih hnd.2 h

/-- `bumpIfId` never changes a row's primary key. -/
theorem bumpIfId_id (rid : Nat) (x : Recipe) : (CRUDRecipe.bumpIfId rid x).id = x.id := by
  unfold CRUDRecipe.bumpIfId
  split <;> rfl

/-- On the row whose key matches, `bumpIfId` is exactly the view increment. -/
theorem bumpIfId_of_eq (rid : Nat) (x : Recipe) (h : x.id = rid) :
    CRUDRecipe.bumpIfId rid x = { x with views := x.views + 1 } := by
  unfold CRUDRecipe.bumpIfId
  rw [if_pos (by simp [h])]

/-- On a row whose key differs, `bumpIfId` is the identity. -/
theorem bumpIfId_of_ne (rid : Nat) (x : Recipe) (h : ¬ x.id = rid) :
    CRUDRecipe.bumpIfId rid x = x := by
  unfold CRUDRecipe.bumpIfId
  rw [if_neg (by simp [h])]

/-- The primary-key lookup commutes with the per-row view bump that
`get_recipe` performs on the found row. -/
theorem find?_map_update (l : List Recipe) (rid : Nat) :
    (l.map (CRUDRecipe.bumpIfId rid)).find? (fun x => x.id == rid)
      = (l.find? (fun x => x.id == rid)).map (fun r => { r with views := r.views + 1 }) := by
  induction l with
  | nil => rfl
  | cons a t ih =>
    rw [List.map_cons]
    by_cases h : a.id = rid
    · have e1 : (CRUDRecipe.bumpIfId rid a :: t.map (CRUDRecipe.bumpIfId rid)).find?
          (fun x => x.id == rid) = some (CRUDRecipe.bumpIfId rid a) :=
        List.find?_cons_of_pos _ (by rw [bumpIfId_id]; simp [h])
      have e2 : (a :: t).find? (fun x => x.id == rid) = some a :=
        List.find?_cons_of_pos _ (by simp [h])
      rw [e1, e2, bumpIfId_of_eq rid a h]
      rfl
    · have e1 : (CRUDRecipe.bumpIfId rid a :: t.map (CRUDRecipe.bumpIfId rid)).find?
          (fun x => x.id == rid) = (t.map (CRUDRecipe.bumpIfId rid)).find? (fun x => x.id == rid) :=
        List.find?_cons_of_neg _ (by rw [bumpIfId_id]; simp [h])
      have e2 : (a :: t).find? (fun x => x.id == rid) = t.find? (fun x => x.id == rid) :=
        List.find?_cons_of_neg _ (by simp [h])
      rw [e1, e2, ih]

/-- The `views` counter currently stored for the recipe with primary key
`rid`, when that recipe exists. -/
def viewsOf (s : Store) (rid : Nat) : Option Nat :=
  (s.recipes.find? (fun r => r.id == rid)).map Recipe.views

/-- One `get_recipe` call adds exactly one to the stored `views` of the
fetched id and nothing else can be observed through `viewsOf`. -/
theorem viewsOf_get_recipe (s : Store) (rid : Nat) :
    viewsOf (CRUDRecipe.get_recipe s rid).2 rid = (viewsOf s rid).map (· + 1) := by
  unfold CRUDRecipe.get_recipe viewsOf
  cases h : s.recipes.find? (fun r => r.id == rid) with
  | none =>
    show (s.recipes.find? (fun r => r.id == rid)).map Recipe.views
      = (Option.map Recipe.views (none : Option Recipe)).map (· + 1)
    rw [h]
    rfl
  | some r =>
    show ((s.recipes.map (CRUDRecipe.bumpIfId rid)).find? (fun x => x.id == rid)).map Recipe.views
      = (Option.map Recipe.views (some r)).map (· + 1)
    rw [find?_map_update, h]
    rfl

/-- `fetchN s rid n` performs `n` sequential `get_recipe` calls for the same
id, threading the store. -/
def fetchN (s : Store) (rid : Nat) : Nat → Store
  | 0 => s
  | n + 1 => fetchN (CRUDRecipe.get_recipe s rid).2 rid n

/-- `n` sequential fetches of the same id add exactly `n` to its stored
`views`. -/
theorem viewsOf_fetchN (s : Store) (rid : Nat) (n : Nat) :
    viewsOf (fetchN s rid n) rid = (viewsOf s rid).map (· + n) := by
  induction n generalizing s with
  | zero =>
    show viewsOf s rid = (viewsOf s rid).map (· + 0)
    cases viewsOf s rid with
    | none => rfl
    | some v => rfl
  | succ n ih =>
    show viewsOf (fetchN (CRUDRecipe.get_recipe s rid).2 rid n) rid = (viewsOf s rid).map (· + (n + 1))
    rw [ih, viewsOf_get_recipe]
    cases viewsOf s rid with
    | none => rfl
    | some v =>
      show some (v + 1 + n) = some (v + (n + 1))
      exact congrArg some (by omega)

/-- C2: when the store contains a recipe `r` with the requested id (ids
being pairwise distinct, the store's primary-key invariant), `get_recipe`
returns `r` with `views` incremented by exactly 1 and with its
`ingredients` association intact, the incremented row is persisted in the
returned store, and `n` sequential fetches of that id leave its stored
`views` at exactly `r.views + n`. -/
theorem C2_get_recipe_increments_views (s : Store) (r : Recipe) (rid : Nat)
    (hnd : (s.recipes.map Recipe.id).Nodup) (hmem : r ∈ s.recipes) (hid : r.id = rid) :
    (CRUDRecipe.get_recipe s rid).1 = some { r with views := r.views + 1 }
    ∧ { r with views := r.views + 1 } ∈ (CRUDRecipe.get_recipe s rid).2.recipes
    ∧ ((CRUDRecipe.get_recipe s rid).1.map Recipe.ingredients) = some r.ingredients
    ∧ ∀ n : Nat, viewsOf (fetchN s rid n) rid = some (r.views + n) := by
  have hf := find?_eq_of_nodup_ids s.recipes r rid hnd hmem hid
  refine ⟨?_, ?_, ?_, ?_⟩
  · unfold CRUDRecipe.get_recipe
    rw [hf]
  · unfold CRUDRecipe.get_recipe
    rw [hf]
    show { r with views := r.views + 1 } ∈ s.recipes.map (CRUDRecipe.bumpIfId rid)
    rw [← bumpIfId_of_eq rid r hid]
    exact List.mem_map_of_mem _ hmem
  · unfold CRUDRecipe.get_recipe
    rw [hf]
    rfl
  · intro n
    rw [viewsOf_fetchN]
    unfold viewsOf
    rw [hf]
    rfl

/-- Fixture row for the single-recipe witness store. -/
def wR : Recipe := ⟨0, "t", 1, "d", 0, []⟩

/-- Witness store holding exactly the fixture row `wR`. -/
def wStore : Store := ⟨[wR], [], 1, 0⟩

/-- Witness for C2 on the one-recipe store: the fetch returns the row with
`views = 1` and three sequential fetches leave the stored counter at 3. -/
theorem C2_witness :
    (CRUDRecipe.get_recipe wStore 0).1 = some { wR with views := wR.views + 1 }
    ∧ viewsOf (fetchN wStore 0 3) 0 = some 3 := by
  have h := C2_get_recipe_increments_views wStore wR 0 (by decide) (by decide) (by decide)
  exact ⟨h.1, h.2.2.2 3⟩

/-! ### C5 and C9: the not-found path -/

/-- When no row has the requested id, `get_recipe` returns `none` and the
store untouched (the source issues no commit on this path). -/
theorem get_recipe_of_not_found (s : Store) (rid : Nat)
    (h : ∀ r ∈ s.recipes, r.id ≠ rid) :
    CRUDRecipe.get_recipe s rid = (none, s) := by
  unfold CRUDRecipe.get_recipe
  rw [List.find?_eq_none.mpr (fun x hx => by simp [h x hx])]

/-- C5: fetching an id with no matching recipe yields an absent result from
the data-access layer, and the route turns it into a 404 reply carrying the
"not found" message. -/
theorem C5_not_found_contract (s : Store) (rid : Nat)
    (h : ∀ r ∈ s.recipes, r.id ≠ rid) :
    (CRUDRecipe.get_recipe s rid).1 = none
    ∧ getRecipeRoute s rid
        = ({ status := 404, body := none, detail := some "Рецепт не найден" }, s) := by
  have hg := get_recipe_of_not_found s rid h
  constructor
  · rw [hg]
  · unfold getRecipeRoute
    rw [hg]

/-- Witness for C5 on the empty store. -/
theorem C5_witness :
    (CRUDRecipe.get_recipe Store.empty 7).1 = none
    ∧ getRecipeRoute Store.empty 7
        = ({ status := 404, body := none, detail := some "Рецепт не найден" }, Store.empty) :=
  C5_not_found_contract Store.empty 7 (by intro r hr; cases hr)

/-- C9: on the not-found path `get_recipe` leaves the store completely
unchanged — no recipe row, ingredient row, or association entry is created,
modified, or deleted. -/
theorem C9_not_found_leaves_store_unchanged (s : Store) (rid : Nat)
    (h : ∀ r ∈ s.recipes, r.id ≠ rid) :
    (CRUDRecipe.get_recipe s rid).2 = s := by
  rw [get_recipe_of_not_found s rid h]

/-- Witness for C9 on the one-recipe store with a non-matching id. -/
theorem C9_witness : (CRUDRecipe.get_recipe wStore 5).2 = wStore :=
  C9_not_found_leaves_store_unchanged wStore 5 (by decide)

/-! ### Properties of the ingredient-resolution loop -/

/-- The loop only appends ingredient rows: the rows present before a
resolution are an initial segment of the rows after it. -/
theorem resolve_rows_grow (names : List String) (s : Store) :
    ∃ t, (CRUDRecipe.resolveIngredients s names).2.ingredientRows = s.ingredientRows ++ t := by
  induction names generalizing s with
  | nil =>
    refine ⟨[], ?_⟩
    unfold CRUDRecipe.resolveIngredients
    rw [List.append_nil]
  | cons nm rest ih =>
    unfold CRUDRecipe.resolveIngredients
    cases hf : s.ingredientRows.find? (fun i => i.name == nm) with
    | some ing =>
      show ∃ t, (CRUDRecipe.resolveIngredients s rest).2.ingredientRows = s.ingredientRows ++ t
      exact ih s
    | none =>
      obtain ⟨t, ht⟩ := ih (CRUDRecipe.insertIngredient s nm)
      refine ⟨⟨s.nextIngredientId, nm⟩ :: t, ?_⟩
      show (CRUDRecipe.resolveIngredients (CRUDRecipe.insertIngredient s nm) rest).2.ingredientRows
        = s.ingredientRows ++ (⟨s.nextIngredientId, nm⟩ :: t)
      rw [ht]
      show (s.ingredientRows ++ [⟨s.nextIngredientId, nm⟩]) ++ t = _
      rw [List.append_assoc]
      rfl

/-- Ingredient rows are never deleted by the loop. -/
theorem resolve_rows_mem (names : List String) (s : Store) (ing : Ingredient)
    (h : ing ∈ s.ingredientRows) :
    ing ∈ (CRUDRecipe.resolveIngredients s names).2.ingredientRows := by
  obtain ⟨t, ht⟩ := resolve_rows_grow names s
  rw [ht]
  exact List.mem_append_left t h

/-- The loop touches neither the recipe table nor its id counter. -/
theorem resolve_frame (names : List String) (s : Store) :
    (CRUDRecipe.resolveIngredients s names).2.recipes = s.recipes
    ∧ (CRUDRecipe.resolveIngredients s names).2.nextRecipeId = s.nextRecipeId := by
  induction names generalizing s with
  | nil => exact ⟨rfl, rfl⟩
  | cons nm rest ih =>
    unfold CRUDRecipe.resolveIngredients
    cases hf : s.ingredientRows.find? (fun i => i.name == nm) with
    | some ing => exact ih s
    | none => exact ih (CRUDRecipe.insertIngredient s nm)

/-- A failed exact-name lookup means no row carries that name. -/
theorem not_mem_names_of_find?_none (l : List Ingredient) (nm : String)
    (h : l.find? (fun i => i.name == nm) = none) :
    nm ∉ l.map Ingredient.name := by
  intro hmem
  obtain ⟨i, hi, hname⟩ := List.mem_map.mp hmem
  exact List.find?_eq_none.mp h i hi (by simp [hname])

/-- The loop preserves global uniqueness of ingredient names: it inserts a
row only after the lookup for that exact name failed. -/
theorem resolve_names_nodup (names : List String) (s : Store)
    (h : (s.ingredientRows.map Ingredient.name).Nodup) :
    ((CRUDRecipe.resolveIngredients s names).2.ingredientRows.map Ingredient.name).Nodup := by
  induction names generalizing s with
  | nil => exact h
  | cons nm rest ih =>
    unfold CRUDRecipe.resolveIngredients
    cases hf : s.ingredientRows.find? (fun i => i.name == nm) with
    | some ing => exact ih s h
    | none =>
      apply ih (CRUDRecipe.insertIngredient s nm)
      show ((s.ingredientRows ++ [(⟨s.nextIngredientId, nm⟩ : Ingredient)]).map Ingredient.name).Nodup
      rw [List.map_append, List.nodup_append]
      refine ⟨h, List.nodup_singleton nm, ?_⟩
      intro a ha hb
      have : a = nm := by
        simpa using hb
      exact not_mem_names_of_find?_none s.ingredientRows nm hf (this ▸ ha)

/-- Every requested name resolves: after the loop there is a row with that
exact name whose id is among the returned references. -/
theorem resolve_complete (names : List String) (s : Store) :
    ∀ nm ∈ names,
      ∃ ing ∈ (CRUDRecipe.resolveIngredients s names).2.ingredientRows,
        ing.name = nm ∧ ing.id ∈ (CRUDRecipe.resolveIngredients s names).1 := by
  induction names generalizing s with
  | nil => intro nm h; cases h
  | cons n0 rest ih =>
    intro nm hnm
    unfold CRUDRecipe.resolveIngredients
    cases hf : s.ingredientRows.find? (fun i => i.name == n0) with
    | some ing0 =>
      rcases List.mem_cons.mp hnm with he | hr
      · subst he
        have hbeq := List.find?_some hf
        refine ⟨ing0, ?_, eq_of_beq hbeq, ?_⟩
        · exact resolve_rows_mem rest s ing0 (List.mem_of_find?_eq_some hf)
        · show ing0.id ∈ ing0.id :: (CRUDRecipe.resolveIngredients s rest).1
          exact List.mem_cons_self _ _
      · obtain ⟨ing, hm, hname, hid⟩ := ih s nm hr
        refine ⟨ing, hm, hname, ?_⟩
        show ing.id ∈ ing0.id :: (CRUDRecipe.resolveIngredients s rest).1
        exact List.mem_cons_of_mem _ hid
    | none =>
      rcases List.mem_cons.mp hnm with he | hr
      · subst he
        refine ⟨⟨s.nextIngredientId, nm⟩, ?_, rfl, ?_⟩
        · apply resolve_rows_mem
          show _ ∈ s.ingredientRows ++ [(⟨s.nextIngredientId, nm⟩ : Ingredient)]
          exact List.mem_append_right _ (List.mem_cons_self _ _)
        · show s.nextIngredientId
            ∈ s.nextIngredientId :: (CRUDRecipe.resolveIngredients (CRUDRecipe.insertIngredient s nm) rest).1
          exact List.mem_cons_self _ _
      · obtain ⟨ing, hm, hname, hid⟩ := ih (CRUDRecipe.insertIngredient s n0) nm hr
        refine ⟨ing, hm, hname, ?_⟩
        show ing.id ∈ s.nextIngredientId
          :: (CRUDRecipe.resolveIngredients (CRUDRecipe.insertIngredient s n0) rest).1
        exact List.mem_cons_of_mem _ hid

/-- Every returned reference points at a row that exists after the loop and
whose name was requested. -/
theorem resolve_sound (names : List String) (s : Store) :
    ∀ i ∈ (CRUDRecipe.resolveIngredients s names).1,
      ∃ ing ∈ (CRUDRecipe.resolveIngredients s names).2.ingredientRows,
        ing.id = i ∧ ing.name ∈ names := by
  induction names generalizing s with
  | nil =>
    intro i h
    simp [CRUDRecipe.resolveIngredients] at h
  | cons n0 rest ih =>
    intro i hi
    unfold CRUDRecipe.resolveIngredients at hi ⊢
    cases hf : s.ingredientRows.find? (fun i => i.name == n0) with
    | some ing0 =>
      rw [hf] at hi
      have hi' : i ∈ ing0.id :: (CRUDRecipe.resolveIngredients s rest).1 := hi
      rcases List.mem_cons.mp hi' with he | hr
      · refine ⟨ing0, resolve_rows_mem rest s ing0 (List.mem_of_find?_eq_some hf), he.symm, ?_⟩
        have hbeq := List.find?_some hf
        rw [eq_of_beq hbeq]
        exact List.mem_cons_self _ _
      · obtain ⟨ing, hm, hid, hname⟩ := ih s i hr
        exact ⟨ing, hm, hid, List.mem_cons_of_mem _ hname⟩
    | none =>
      rw [hf] at hi
      have hi' : i ∈ s.nextIngredientId
          :: (CRUDRecipe.resolveIngredients (CRUDRecipe.insertIngredient s n0) rest).1 := hi
      rcases List.mem_cons.mp hi' with he | hr
      · refine ⟨⟨s.nextIngredientId, n0⟩, ?_, he.symm, List.mem_cons_self _ _⟩
        apply resolve_rows_mem
        show _ ∈ s.ingredientRows ++ [(⟨s.nextIngredientId, n0⟩ : Ingredient)]
        exact List.mem_append_right _ (List.mem_cons_self _ _)
      · obtain ⟨ing, hm, hid, hname⟩ := ih (CRUDRecipe.insertIngredient s n0) i hr
        exact ⟨ing, hm, hid, List.mem_cons_of_mem _ hname⟩

/-- For a name that already has a row, the loop changes the number of rows
carrying that name by nothing at all. -/
theorem resolve_countP_of_mem (names : List String) (s : Store) (nm : String)
    (h : ∃ i ∈ s.ingredientRows, i.name = nm) :
    (CRUDRecipe.resolveIngredients s names).2.ingredientRows.countP (fun i => i.name == nm)
      = s.ingredientRows.countP (fun i => i.name == nm) := by
  induction names generalizing s with
  | nil => rfl
  | cons n0 rest ih =>
    unfold CRUDRecipe.resolveIngredients
    cases hf : s.ingredientRows.find? (fun i => i.name == n0) with
    | some ing0 => exact ih s h
    | none =>
      obtain ⟨i0, hi0, hi0name⟩ := h
      have habs := not_mem_names_of_find?_none s.ingredientRows n0 hf
      have hne : n0 ≠ nm := by
        intro he
        exact habs (by rw [he, ← hi0name]; exact List.mem_map_of_mem Ingredient.name hi0)
      have hx : ∃ i ∈ (CRUDRecipe.insertIngredient s n0).ingredientRows, i.name = nm := by
        refine ⟨i0, ?_, hi0name⟩
        show i0 ∈ s.ingredientRows ++ [⟨s.nextIngredientId, n0⟩]
        exact List.mem_append_left _ hi0
      show (CRUDRecipe.resolveIngredients (CRUDRecipe.insertIngredient s n0) rest).2.ingredientRows.countP
          (fun i => i.name == nm) = s.ingredientRows.countP (fun i => i.name == nm)
      rw [ih (CRUDRecipe.insertIngredient s n0) hx]
      show (s.ingredientRows ++ [(⟨s.nextIngredientId, n0⟩ : Ingredient)]).countP (fun i => i.name == nm) = _
      rw [List.countP_append]
      have h0 : ([(⟨s.nextIngredientId, n0⟩ : Ingredient)]).countP (fun i => i.name == nm) = 0 := by
        rw [List.countP_eq_zero]
        intro a ha
        have : a = ⟨s.nextIngredientId, n0⟩ := by simpa using ha
        simp [this, hne]
      rw [h0]
      rfl

/-- In a table with globally unique names, at most one row carries any given
name. -/
theorem countP_name_le_one (l : List Ingredient) (nm : String)
    (h : (l.map Ingredient.name).Nodup) :
    l.countP (fun i => i.name == nm) ≤ 1 := by
  induction l with
  | nil => simp
  | cons a t ih =>
    rw [List.map_cons, List.nodup_cons] at h
    rw [List.countP_cons]
    by_cases ha : a.name = nm
    · have h0 : t.countP (fun i => i.name == nm) = 0 := by
        rw [List.countP_eq_zero]
        intro b hb hbeq
        exact h.1 (by rw [ha, ← eq_of_beq hbeq]; exact List.mem_map_of_mem Ingredient.name hb)
      rw [h0, if_pos (by simp [ha])]
    · rw [if_neg (by simp [ha]), Nat.add_zero]
      exact ih h.2

/-- The loop returns exactly one reference per requested name, in order. -/
theorem resolve_ids_length (names : List String) (s : Store) :
    (CRUDRecipe.resolveIngredients s names).1.length = names.length := by
  induction names generalizing s with
  | nil => rfl
  | cons n0 rest ih =>
    unfold CRUDRecipe.resolveIngredients
    cases hf : s.ingredientRows.find? (fun i => i.name == n0) with
    | some ing0 =>
      show (ing0.id :: (CRUDRecipe.resolveIngredients s rest).1).length = rest.length + 1
      rw [List.length_cons, ih s]
    | none =>
      show (s.nextIngredientId
          :: (CRUDRecipe.resolveIngredients (CRUDRecipe.insertIngredient s n0) rest).1).length
        = rest.length + 1
      rw [List.length_cons, ih (CRUDRecipe.insertIngredient s n0)]

/-! ### C3: ingredient reuse across recipes -/

/-- Request creating recipe A with ingredient `"flour"`. -/
def flourCreate : RecipeCreate := ⟨"A", 1, "a", ["flour"]⟩

/-- Request creating recipe B with ingredients `"flour"` and `"sugar"`. -/
def sugarCreate : RecipeCreate := ⟨"B", 2, "b", ["flour", "sugar"]⟩

/-- Recipe A, created on the empty store. -/
def recipeA : Recipe := (CRUDRecipe.create_recipe Store.empty flourCreate).1

/-- The store after creating recipe A. -/
def storeA : Store := (CRUDRecipe.create_recipe Store.empty flourCreate).2

/-- Recipe B, created after recipe A. -/
def recipeB : Recipe := (CRUDRecipe.create_recipe storeA sugarCreate).1

/-- The store after creating recipe A and then recipe B. -/
def storeB : Store := (CRUDRecipe.create_recipe storeA sugarCreate).2

/-- C3: in a store with globally unique ingredient names, creating a recipe
whose `ingredient_names` contain the name of an existing ingredient row
reuses that row — the row survives, its id is among the new recipe's
ingredient references, and the store still holds exactly one row with that
name (no duplicate is ever inserted); concretely, creating recipe A with
`["flour"]` and then recipe B with `["flour", "sugar"]` leaves exactly the
rows `flour` (id 0) and `sugar` (id 1), with the `flour` row shared by both
recipes' reference lists and `sugar` a fresh row. -/
theorem C3_ingredient_reuse (s : Store) (rc : RecipeCreate) (ing : Ingredient)
    (hu : (s.ingredientRows.map Ingredient.name).Nodup)
    (hmem : ing ∈ s.ingredientRows) (hin : ing.name ∈ rc.ingredient_names) :
    (ing ∈ (CRUDRecipe.create_recipe s rc).2.ingredientRows
    ∧ ing.id ∈ (CRUDRecipe.create_recipe s rc).1.ingredients
    ∧ (CRUDRecipe.create_recipe s rc).2.ingredientRows.countP (fun i => i.name == ing.name) = 1)
    ∧ storeB.ingredientRows = [⟨0, "flour"⟩, ⟨1, "sugar"⟩]
    ∧ recipeA.ingredients = [0]
    ∧ recipeB.ingredients = [0, 1] := by
  have hr : ing ∈ (CRUDRecipe.resolveIngredients s rc.ingredient_names).2.ingredientRows :=
    resolve_rows_mem rc.ingredient_names s ing hmem
  refine ⟨⟨hr, ?_, ?_⟩, by decide, by decide, by decide⟩
  · obtain ⟨ing', hm', hname', hid'⟩ := resolve_complete rc.ingredient_names s ing.name hin
    have hnd' := resolve_names_nodup rc.ingredient_names s hu
    have heq : ing' = ing := List.inj_on_of_nodup_map hnd' hm' hr hname'
    show ing.id ∈ (CRUDRecipe.resolveIngredients s rc.ingredient_names).1
    rw [← heq]
    exact hid'
  · show (CRUDRecipe.resolveIngredients s rc.ingredient_names).2.ingredientRows.countP
      (fun i => i.name == ing.name) = 1
    rw [resolve_countP_of_mem rc.ingredient_names s ing.name ⟨ing, hmem, rfl⟩]
    have h1 := countP_name_le_one s.ingredientRows ing.name hu
    have h2 : 0 < s.ingredientRows.countP (fun i => i.name == ing.name) :=
      List.countP_pos_iff.mpr ⟨ing, hmem, by simp⟩
    omega

/-- Witness for C3: the `flour` row created by recipe A is reused by
recipe B and still unique afterwards. -/
theorem C3_witness :
    (⟨0, "flour"⟩ : Ingredient) ∈ (CRUDRecipe.create_recipe storeA sugarCreate).2.ingredientRows
    ∧ (0 : Nat) ∈ (CRUDRecipe.create_recipe storeA sugarCreate).1.ingredients
    ∧ (CRUDRecipe.create_recipe storeA sugarCreate).2.ingredientRows.countP
        (fun i => i.name == "flour") = 1 := by
  have h := C3_ingredient_reuse storeA sugarCreate ⟨0, "flour"⟩ (by decide) (by decide) (by decide)
  exact h.1

/-! ### C4: in-order resolution and the duplicate-name membership -/

/-- Request with a duplicated ingredient name, `["egg", "milk", "egg"]`. -/
def eggCreate : RecipeCreate := ⟨"cake", 5, "d", ["egg", "milk", "egg"]⟩

/-- The recipe created from `eggCreate` on the empty store. -/
def eggRecipe : Recipe := (CRUDRecipe.create_recipe Store.empty eggCreate).1

/-- The store after creating `eggRecipe` on the empty store. -/
def eggStore : Store := (CRUDRecipe.create_recipe Store.empty eggCreate).2

/-- Counterexample to C4 as stated: for `ingredient_names =
["egg", "milk", "egg"]` the created recipe's ingredient reference list is
`[0, 1, 0]` — the `egg` row (id 0) is referenced twice, so the recipe's
ingredient collection does have duplicate membership. -/
theorem C4_counterexample :
    eggRecipe.ingredients = [0, 1, 0] ∧ ¬ eggRecipe.ingredients.Nodup := by
  decide

/-- C4 (amended): each name in `ingredient_names` is resolved in input
order by exact-match lookup, a name absent at its turn is inserted
immediately so a later duplicate resolves to the just-created row and the
table gains exactly one row per distinct name; the referenced ids are
exactly the ids of rows carrying the requested names (one reference per
input position, so a duplicated name yields a duplicated reference, not a
duplicated row); for `["egg", "milk", "egg"]` the table gains exactly the
rows `egg` (id 0) and `milk` (id 1) — no second `egg` row — while the
reference list is `[0, 1, 0]`, whose distinct members are exactly the two
rows. -/
theorem C4_ingredient_resolution (s : Store) (rc : RecipeCreate)
    (hu : (s.ingredientRows.map Ingredient.name).Nodup) :
    ((CRUDRecipe.create_recipe s rc).1.ingredients.length = rc.ingredient_names.length
    ∧ (∀ nm ∈ rc.ingredient_names,
        ∃ ing ∈ (CRUDRecipe.create_recipe s rc).2.ingredientRows,
          ing.name = nm ∧ ing.id ∈ (CRUDRecipe.create_recipe s rc).1.ingredients)
    ∧ (∀ i ∈ (CRUDRecipe.create_recipe s rc).1.ingredients,
        ∃ ing ∈ (CRUDRecipe.create_recipe s rc).2.ingredientRows,
          ing.id = i ∧ ing.name ∈ rc.ingredient_names)
    ∧ (∀ nm ∈ rc.ingredient_names,
        (CRUDRecipe.create_recipe s rc).2.ingredientRows.countP (fun i => i.name == nm) = 1))
    ∧ eggRecipe.ingredients = [0, 1, 0]
    ∧ eggStore.ingredientRows = [⟨0, "egg"⟩, ⟨1, "milk"⟩]
    ∧ eggRecipe.ingredients.toFinset = ({0, 1} : Finset Nat) := by
  refine ⟨⟨?_, ?_, ?_, ?_⟩, by decide, by decide, by decide⟩
  · exact resolve_ids_length rc.ingredient_names s
  · intro nm h
    exact resolve_complete rc.ingredient_names s nm h
  · intro i h
    exact resolve_sound rc.ingredient_names s i h
  · intro nm h
    obtain ⟨ing, hm, hname, hid⟩ := resolve_complete rc.ingredient_names s nm h
    have hnd' := resolve_names_nodup rc.ingredient_names s hu
    have hle := countP_name_le_one
      (CRUDRecipe.resolveIngredients s rc.ingredient_names).2.ingredientRows nm hnd'
    have hge : 0 < (CRUDRecipe.resolveIngredients s rc.ingredient_names).2.ingredientRows.countP
        (fun i => i.name == nm) :=
      List.countP_pos_iff.mpr ⟨ing, hm, by simp [hname]⟩
    show (CRUDRecipe.resolveIngredients s rc.ingredient_names).2.ingredientRows.countP
      (fun i => i.name == nm) = 1
    omega

/-- Witness for C4 (amended) on the `["egg", "milk", "egg"]` request over
the empty store: three references are returned and the `egg` row is unique. -/
theorem C4_witness :
    (CRUDRecipe.create_recipe Store.empty eggCreate).1.ingredients.length
        = eggCreate.ingredient_names.length
    ∧ (CRUDRecipe.create_recipe Store.empty eggCreate).2.ingredientRows.countP
        (fun i => i.name == "egg") = 1 := by
  have h := C4_ingredient_resolution Store.empty eggCreate (by decide)
  exact ⟨h.1.1, h.1.2.2.2 "egg" (by decide)⟩

/-! ### C6: request validation at the POST boundary -/

/-- Counterexample to C6 as stated: a request whose `description` is the
empty string passes validation — it is not rejected, the handler runs,
the recipe is created (status 201) and the store changes. -/
theorem C6_counterexample :
    validRecipeCreate ⟨"t", 1, "", ["x"]⟩ = true
    ∧ (postRecipesRoute Store.empty ⟨"t", 1, "", ["x"]⟩).1.status = 201
    ∧ (postRecipesRoute Store.empty ⟨"t", 1, "", ["x"]⟩).2 ≠ Store.empty := by
  decide

/-- C6 (amended): a POST whose `title` exceeds 100 characters or whose
`cooking_time` is below 1 fails validation and is rejected with the
client-error status 422 before the data-access layer runs — the store is
returned untouched and no recipe body is produced.  An empty `description`
is not rejected: the schema declares no constraint on its value. -/
theorem C6_validation_rejects_before_store (s : Store) (rc : RecipeCreate)
    (h : 100 < rc.title.length ∨ rc.cooking_time < 1) :
    validRecipeCreate rc = false
    ∧ postRecipesRoute s rc = ({ status := 422, body := none, detail := none }, s) := by
  have hv : validRecipeCreate rc = false := by
    unfold validRecipeCreate
    rcases h with h | h
    · have hn : ¬ (rc.title.length ≤ 100) := by omega
      simp [hn]
    · have hn : ¬ ((1 : Int) ≤ rc.cooking_time) := by omega
      simp [hn]
  refine ⟨hv, ?_⟩
  unfold postRecipesRoute
  rw [hv]
  simp

/-- Witness for C6 (amended): `cooking_time = 0` is rejected with 422 and
the empty store is untouched. -/
theorem C6_witness :
    postRecipesRoute Store.empty ⟨"t", 0, "d", []⟩
      = ({ status := 422, body := none, detail := none }, Store.empty) :=
  (C6_validation_rejects_before_store Store.empty ⟨"t", 0, "d", []⟩ (Or.inr (by decide))).2

/-! ### C7: the POST error path -/

/-- Counterexample to C7 as stated: two distinct data-access-layer
exceptions produce two distinct client-visible messages, because the
handler interpolates `str(e)` into the 500 detail — the underlying
exception detail is returned to the client, not hidden. -/
theorem C7_counterexample :
    (createRecipeErrorReply "a").detail ≠ (createRecipeErrorReply "b").detail
    ∧ (createRecipeErrorReply "a").detail = some "Ошибка при создании рецепта: a" := by
  decide

/-- C7 (amended): every exception raised during create is converted to a
500 reply with no recipe body, but the reply's message embeds the
underlying exception text after the fixed Russian prefix, so the message
is leaking: distinct exception texts give distinct client-visible
messages. -/
theorem C7_create_error_reply (e : String) :
    ((createRecipeErrorReply e).status = 500
    ∧ (createRecipeErrorReply e).body = none
    ∧ (createRecipeErrorReply e).detail = some ("Ошибка при создании рецепта: " ++ e))
    ∧ ∀ e' : String,
        (createRecipeErrorReply e).detail = (createRecipeErrorReply e').detail → e = e' := by
  refine ⟨⟨rfl, rfl, rfl⟩, fun e' h => ?_⟩
  have hs : "Ошибка при создании рецепта: " ++ e = "Ошибка при создании рецепта: " ++ e' :=
    Option.some.inj h
  have hd := congrArg String.data hs
  simp [String.data_append] at hd
  exact String.ext hd

/-- Witness for C7 (amended), applied at the exception texts `"a"` and the
reply for `"a"` itself. -/
theorem C7_witness :
    (createRecipeErrorReply "a").status = 500
    ∧ ((createRecipeErrorReply "a").detail = (createRecipeErrorReply "a").detail → "a" = "a") :=
  ⟨(C7_create_error_reply "a").1.1, (C7_create_error_reply "a").2 "a"⟩

/-! ### C8: lifecycle of the `views` counter -/

/-- C8: `views` starts at 0 and only the single-recipe fetch path changes
it — `create_recipe` inserts the new row with `views = 0` and appends it
after the untouched existing rows, the list and ingredient routes return
the store unchanged, and `get_recipe` maps every stored row to a row equal
in every column except possibly `views`, which either stays or grows by
exactly 1. -/
theorem C8_views_lifecycle :
    (∀ (s : Store) (rc : RecipeCreate), (CRUDRecipe.create_recipe s rc).1.views = 0)
    ∧ (∀ (s : Store) (rc : RecipeCreate),
        (CRUDRecipe.create_recipe s rc).2.recipes
          = s.recipes ++ [(CRUDRecipe.create_recipe s rc).1])
    ∧ (∀ (s : Store) (skip limit : Nat),
        getRecipesRoute s skip limit = ((200, CRUDRecipe.get_recipes s skip limit), s))
    ∧ (∀ s : Store, getIngredientsRoute s = ((200, CRUDRecipe.get_ingredients s), s))
    ∧ (∀ (s : Store) (rid : Nat), ∀ r' ∈ (CRUDRecipe.get_recipe s rid).2.recipes,
        ∃ r ∈ s.recipes, r'.id = r.id ∧ r'.title = r.title
          ∧ r'.cooking_time = r.cooking_time ∧ r'.descr = r.descr
          ∧ r'.ingredients = r.ingredients
          ∧ (r'.views = r.views ∨ r'.views = r.views + 1)) := by
  refine ⟨fun s rc => rfl, fun s rc => ?_, fun s skip limit => rfl, fun s => rfl, ?_⟩
  · show (CRUDRecipe.resolveIngredients s rc.ingredient_names).2.recipes
        ++ [(CRUDRecipe.create_recipe s rc).1]
      = s.recipes ++ [(CRUDRecipe.create_recipe s rc).1]
    rw [(resolve_frame rc.ingredient_names s).1]
  · intro s rid r' hr'
    unfold CRUDRecipe.get_recipe at hr'
    cases hf : s.recipes.find? (fun r => r.id == rid) with
    | none =>
      rw [hf] at hr'
      exact ⟨r', hr', rfl, rfl, rfl, rfl, rfl, Or.inl rfl⟩
    | some r0 =>
      rw [hf] at hr'
      have hr'' : r' ∈ s.recipes.map (CRUDRecipe.bumpIfId rid) := hr'
      obtain ⟨x, hx, hxe⟩ := List.mem_map.mp hr''
      by_cases hid : x.id = rid
      · rw [bumpIfId_of_eq rid x hid] at hxe
        exact ⟨x, hx, by rw [← hxe], by rw [← hxe], by rw [← hxe], by rw [← hxe],
          by rw [← hxe], Or.inr (by rw [← hxe])⟩
      · rw [bumpIfId_of_ne rid x hid] at hxe
        exact ⟨x, hx, by rw [← hxe], by rw [← hxe], by rw [← hxe], by rw [← hxe],
          by rw [← hxe], Or.inl (by rw [← hxe])⟩

/-- Witness for C8: a freshly created recipe has 0 views, and the row
stored after fetching the single recipe of the one-recipe store matches
its pre-fetch column values with `views` grown by 1. -/
theorem C8_witness :
    (CRUDRecipe.create_recipe Store.empty flourCreate).1.views = 0
    ∧ ∃ r ∈ wStore.recipes, (⟨0, "t", 1, "d", 1, []⟩ : Recipe).id = r.id
        ∧ (⟨0, "t", 1, "d", 1, []⟩ : Recipe).title = r.title
        ∧ (⟨0, "t", 1, "d", 1, []⟩ : Recipe).cooking_time = r.cooking_time
        ∧ (⟨0, "t", 1, "d", 1, []⟩ : Recipe).descr = r.descr
        ∧ (⟨0, "t", 1, "d", 1, []⟩ : Recipe).ingredients = r.ingredients
        ∧ ((⟨0, "t", 1, "d", 1, []⟩ : Recipe).views = r.views
            ∨ (⟨0, "t", 1, "d", 1, []⟩ : Recipe).views = r.views + 1) :=
  ⟨C8_views_lifecycle.1 Store.empty flourCreate,
   C8_views_lifecycle.2.2.2.2 wStore 0 ⟨0, "t", 1, "d", 1, []⟩ (by decide)⟩

/-! ### C10: creating a recipe with no ingredients -/

/-- C10: a POST with an empty `ingredient_names` list and otherwise valid
fields is accepted at the public interface — validation passes, the
handler answers 201 with the created recipe, and that recipe has an empty
ingredient set and `views = 0`. -/
theorem C10_empty_ingredient_names (s : Store) (t d : String) (ct : Int)
    (h1 : t.length ≤ 100) (h2 : 1 ≤ ct) :
    validRecipeCreate ⟨t, ct, d, []⟩ = true
    ∧ (postRecipesRoute s ⟨t, ct, d, []⟩).1.status = 201
    ∧ (postRecipesRoute s ⟨t, ct, d, []⟩).1.body
        = some (CRUDRecipe.create_recipe s ⟨t, ct, d, []⟩).1
    ∧ (CRUDRecipe.create_recipe s ⟨t, ct, d, []⟩).1.ingredients = []
    ∧ (CRUDRecipe.create_recipe s ⟨t, ct, d, []⟩).1.views = 0 := by
  have hv : validRecipeCreate ⟨t, ct, d, []⟩ = true := by
    unfold validRecipeCreate
    simp [h1, h2]
  have hpost : postRecipesRoute s ⟨t, ct, d, []⟩
      = ({ status := 201, body := some (CRUDRecipe.create_recipe s ⟨t, ct, d, []⟩).1,
           detail := none },
         (CRUDRecipe.create_recipe s ⟨t, ct, d, []⟩).2) := by
    unfold postRecipesRoute
    rw [hv]
    simp
  refine ⟨hv, ?_, ?_, rfl, rfl⟩
  · rw [hpost]
  · rw [hpost]

/-- Witness for C10 on the empty store with title `"t"`, cooking time 1 and
empty description. -/
theorem C10_witness :
    validRecipeCreate ⟨"t", 1, "", []⟩ = true
    ∧ (postRecipesRoute Store.empty ⟨"t", 1, "", []⟩).1.status = 201
    ∧ (CRUDRecipe.create_recipe Store.empty ⟨"t", 1, "", []⟩).1.ingredients = [] :=
  have h := C10_empty_ingredient_names Store.empty "t" "" 1 (by decide) (by decide)
  ⟨h.1, h.2.1, h.2.2.2.1⟩
